import Mathlib

/-
  Verification development for the WhatsApp group-listener bot with Firebase
  App Distribution dispatch.  The JavaScript source is embedded shallowly:
  pure functions become Lean functions, the JS objects become structures, the
  stateful parts (config mutation, process-lifetime caches, console and file
  effects) become explicit state passing plus an ordered effect trace.
  Machine-level details that the claims do not touch (UTF-8 byte layout of
  strings, date formatting, the HTTP layer) are abstracted: external calls are
  oracles supplied in an environment record.
-/

/-! ## JavaScript value model

The config is parsed from JSON, so a field such as enabled can hold any
JSON value.  The source only ever tests enabled with a strict comparison
against the boolean false, so we model a small universe of JS values. -/

inductive JsVal where
  | vBool : Bool → JsVal
  | vStr : String → JsVal
  | vNum : Int → JsVal
  | vNull : JsVal
  | vUndef : JsVal
deriving DecidableEq, Repr

/-- JS truthiness of an optional string field: undefined (none) and the empty
string are falsy, every other string is truthy. -/
def jsTruthyStr (s : Option String) : Bool :=
  match s with
  | none => false
  | some v => v ≠ ""

/-- JS String.prototype.trim modelled on the character list: whitespace is
dropped from both ends.  On the ASCII whitespace relevant here this agrees
with the JS semantics. -/
def trimList (cs : List Char) : List Char :=
  ((cs.dropWhile Char.isWhitespace).reverse.dropWhile Char.isWhitespace).reverse

/-- Lower-case a character list, matching JS toLowerCase on ASCII. -/
def lowerList (l : List Char) : List Char :=
  l.map Char.toLower

/-- JS String.prototype.toLowerCase modelled characterwise. -/
def jsToLower (s : String) : String :=
  String.mk (lowerList s.toList)

/-! ## Config data model (config.json) -/

/-- One entry of targetGroups.  In the source an entry is a JSON object with
fields name, id, enabled; name and id are strings or null or absent, enabled
is an arbitrary JSON value that the source compares strictly against false. -/
structure TargetGroup where
  name : Option String
  id : Option String
  enabled : JsVal
deriving DecidableEq, Repr

structure Settings where
  logAllGroupsIfEmpty : Option Bool
  caseSensitiveGroupNames : Option Bool
  discoveryMode : Option Bool
deriving DecidableEq, Repr

structure FirebaseConfig where
  serviceAccountKeyPath : String
  projectId : String
  androidAppId : Option String
  iosAppId : Option String
deriving DecidableEq, Repr

structure Config where
  targetGroups : List TargetGroup
  settings : Settings
  firebase : FirebaseConfig
deriving DecidableEq, Repr

/-! ## Group Filter (shouldMonitorGroup, source part_001 lines 76-113)

The source iterates over enabledGroups, the list of entries whose enabled
field is not strictly false, mutating the shared entry object on a name match
with unset id and scheduling one asynchronous config save.  We model the
iteration as structural recursion over the full list that skips entries whose
enabled field is strictly false; this is the same traversal because filter
preserves order and the loop returns at the first match.  The result is the
boolean decision, the updated targetGroups list, and the number of config
saves scheduled during the call. -/

/-- Line 81: group.enabled strictly-not-equal false. -/
def isEnabledEntry (g : TargetGroup) : Bool :=
  g.enabled ≠ JsVal.vBool false

/-- Line 88: targetGroup.id truthy and strictly equal to groupId. -/
def matchesById (g : TargetGroup) (groupId : String) : Bool :=
  jsTruthyStr g.id && g.id == some groupId

/-- Lines 94-99: the compared form of a name under the case-sensitivity rule.
caseSensitiveGroupNames is truthy only when it is the boolean true. -/
def nameForCompare (settings : Settings) (n : String) : String :=
  if settings.caseSensitiveGroupNames = some true then n else jsToLower n

/-- Lines 93-101: targetGroup.name truthy and equal to groupName under the
configured case-sensitivity rule. -/
def matchesByName (settings : Settings) (g : TargetGroup) (groupName : String) : Bool :=
  jsTruthyStr g.name &&
    nameForCompare settings (g.name.getD "") == nameForCompare settings groupName

/-- The loop of lines 86-110 over the target groups.  Returns the decision,
the updated list and the number of scheduled config saves. -/
def shouldMonitorLoop (settings : Settings) (groupId groupName : String) :
    List TargetGroup → Bool × List TargetGroup × Nat
  | [] => (false, [], 0)
  | g :: rest =>
    if isEnabledEntry g then
      if matchesById g groupId then (true, g :: rest, 0)
      else if matchesByName settings g groupName then
        (if jsTruthyStr g.id then (true, g :: rest, 0)
         else (true, { g with id := some groupId } :: rest, 1))
      else
        let r := shouldMonitorLoop settings groupId groupName rest
        (r.1, g :: r.2.1, r.2.2)
    else
      let r := shouldMonitorLoop settings groupId groupName rest
      (r.1, g :: r.2.1, r.2.2)

/-- shouldMonitorGroup, lines 76-113.  A missing or null targetGroups field in
the JSON is modelled as the empty list, which the source treats the same way
at line 77. -/
def shouldMonitorGroup (cfg : Config) (groupId groupName : String) :
    Bool × Config × Nat :=
  if cfg.targetGroups.isEmpty then
    ((cfg.settings.logAllGroupsIfEmpty != some false), cfg, 0)
  else if (cfg.targetGroups.filter isEnabledEntry).isEmpty then
    ((cfg.settings.logAllGroupsIfEmpty != some false), cfg, 0)
  else
    let r := shouldMonitorLoop cfg.settings groupId groupName cfg.targetGroups
    (r.1, { cfg with targetGroups := r.2.1 }, r.2.2)

/-- Line 417 of the source (startWhatsAppBot, connection open): the list of
entries announced as monitored, config.targetGroups filtered by
enabled strictly-not-equal false. -/
def announcedGroups (cfg : Config) : List TargetGroup :=
  cfg.targetGroups.filter (fun g => g.enabled ≠ JsVal.vBool false)

/-! ## Distribution Request Parser (parseDistributionRequest, lines 163-175)

The source matches the trimmed text against the anchored case-insensitive
regular expression

  ([a-zA-Z0-9._%+-]+@[a-zA-Z0-9.-]+\.[a-zA-Z]{2,})-(android|ios)

and on success returns the email capture and the platform capture, both
lower-cased.  We embed the matcher on the character list of the trimmed
string.  Because no character class of the pattern contains the at sign, the
platform words contain neither hyphen nor dot nor at sign, and the top-level
domain label is letters only, a string matches the pattern exactly when it
splits at its last at sign, the last hyphen after it and the last dot of the
part between them, with the five pieces satisfying the class conditions; the
matcher below performs exactly that deterministic decomposition.  JS trim and
toLowerCase agree with the Lean String.trim and Char.toLower on the ASCII
inputs the pattern can accept. -/

/-- Local-part character class of the pattern. -/
def isLocalChar (c : Char) : Bool :=
  c.isAlpha || c.isDigit || c = '.' || c = '_' || c = '%' || c = '+' || c = '-'

/-- Domain character class of the pattern. -/
def isDomainChar (c : Char) : Bool :=
  c.isAlpha || c.isDigit || c = '.' || c = '-'

/-- The platform alternation with the case-insensitive flag. -/
def isPlatformWord (platL : List Char) : Bool :=
  lowerList platL == "android".toList || lowerList platL == "ios".toList

/-- Split a list at the last occurrence of sep, returning the parts strictly
before and strictly after it, or none when sep does not occur. -/
def splitLast (sep : Char) : List Char → Option (List Char × List Char)
  | [] => none
  | c :: rest =>
    match splitLast sep rest with
    | some (b, a) => some (c :: b, a)
    | none => if c = sep then some ([], rest) else none

structure DistRequest where
  email : String
  platform : String
deriving DecidableEq, Repr

/-- parseDistributionRequest, lines 163-175 of the source. -/
def parseDistributionRequest (messageContent : String) : Option DistRequest :=
  let cs := trimList messageContent.toList
  match splitLast '@' cs with
  | none => none
  | some (localL, restL) =>
    if localL.isEmpty || !localL.all isLocalChar then none
    else
      match splitLast '-' restL with
      | none => none
      | some (domL, platL) =>
        if !isPlatformWord platL then none
        else
          match splitLast '.' domL with
          | none => none
          | some (midL, tldL) =>
            if midL.isEmpty || !midL.all isDomainChar then none
            else if tldL.length < 2 || !tldL.all Char.isAlpha then none
            else
              some { email := String.mk (lowerList (localL ++ '@' :: domL)),
                     platform := String.mk (lowerList platL) }

/-- The language of the source pattern, stated as an existential
decomposition of the trimmed character list: local part, middle of the
domain, top-level domain label and platform word. -/
def DistMatch (cs : List Char) : Prop :=
  ∃ localL midL tldL platL,
    cs = localL ++ '@' :: (midL ++ '.' :: (tldL ++ '-' :: platL)) ∧
    localL ≠ [] ∧ localL.all isLocalChar = true ∧
    midL ≠ [] ∧ midL.all isDomainChar = true ∧
    2 ≤ tldL.length ∧ tldL.all Char.isAlpha = true ∧
    isPlatformWord platL = true

/-! Modelled from the spec: claim C3 describes the accepted inputs as the
strings of the form local at domain hyphen platform whose email part is
syntactically valid, with the local part drawn from letters, digits and the
characters dot underscore percent plus hyphen, the domain made of labels
separated by dots, and the final label at least two letters.  The boolean
predicate below renders those words: labels are nonempty runs of letters,
digits and hyphens, there are at least two of them, and the final one is two
or more letters.  It is the claim-side reference point and is deliberately
not derived from the source regular expression. -/

/-- Claim-side domain label characters: letters, digits, hyphen. -/
def claimLabelChar (c : Char) : Bool :=
  c.isAlpha || c.isDigit || c = '-'

/-- Claim-side reading of the accepted language of the parser. -/
def claimAcceptsDistribution (s : String) : Bool :=
  let cs := trimList s.toList
  match splitLast '@' cs with
  | none => false
  | some (localL, restL) =>
    (!localL.isEmpty) && localL.all isLocalChar &&
      match splitLast '-' restL with
      | none => false
      | some (domL, platL) =>
        isPlatformWord platL &&
          (let labels := domL.splitOn '.'
           decide (2 ≤ labels.length) &&
             labels.all (fun lb => !lb.isEmpty && lb.all claimLabelChar) &&
             match labels.getLast? with
             | some lastL => decide (2 ≤ lastL.length) && lastL.all Char.isAlpha
             | none => false)

/-! ## Distribution Dispatcher (lines 180-298)

The external world is an oracle record: the outcome of the release-listing
request (getFirebaseAccessToken plus the HTTP GET of
listAppDistributionReleases, lines 200-217) and the outcome of the
distribute request (addTestersToRelease, lines 226-244).  A network or API
failure is an err with the upstream error text.  Alongside the result we
return the list of external requests the call attempted, in order. -/

structure Release where
  name : String
  displayVersion : Option String
deriving DecidableEq, Repr

inductive ApiOutcome (α : Type) where
  | ok : α → ApiOutcome α
  | err : String → ApiOutcome α
deriving DecidableEq, Repr

inductive NetCall where
  | listReleasesCall : NetCall
  | distributeCall : String → String → NetCall
deriving DecidableEq, Repr

structure DistEnv where
  firebaseReady : Bool
  firebase : FirebaseConfig
  listReleasesOutcome : ApiOutcome (List Release)
  addTestersOutcome : ApiOutcome Unit
deriving DecidableEq, Repr

structure DistResult where
  success : Bool
  message : String
deriving DecidableEq, Repr

/-- listAppDistributionReleases, lines 200-217: on success the release list
of the response (an absent field is the empty list), on any error the catch
block logs the message and returns the empty list. -/
def listAppDistributionReleases (env : DistEnv) : List Release :=
  match env.listReleasesOutcome with
  | ApiOutcome.ok rs => rs
  | ApiOutcome.err _ => []

/-- Line 259: the config key for the platform. -/
def appIdKeyFor (platform : String) : String :=
  if platform == "android" then "androidAppId" else "iosAppId"

/-- Line 260: config.firebase indexed at that key. -/
def appIdFor (fb : FirebaseConfig) (platform : String) : Option String :=
  if platform == "android" then fb.androidAppId else fb.iosAppId

/-- Line 288: displayVersion when truthy, otherwise the release id. -/
def displayOrId (r : Release) (releaseId : String) : String :=
  if jsTruthyStr r.displayVersion then r.displayVersion.getD "" else releaseId

/-- Line 281: name split on slash, last segment. -/
def releaseIdOf (r : Release) : String :=
  String.mk ((r.name.toList.splitOn '/').getLastD [])

/-- addTesterToDistribution, lines 252-298.  Failures thrown by
addTestersToRelease carry the text built at line 242 and are wrapped again by
the catch block at line 295. -/
def addTesterToDistribution (env : DistEnv) (email platform : String) :
    DistResult × List NetCall :=
  if !env.firebaseReady then
    ({ success := false, message := "Firebase not initialized" }, [])
  else
    let appIdKey := appIdKeyFor platform
    let appId := appIdFor env.firebase platform
    if !jsTruthyStr appId then
      ({ success := false,
         message := "No " ++ platform ++ " app ID configured in config.json (" ++
           appIdKey ++ ")" }, [])
    else
      match listAppDistributionReleases env with
      | [] =>
        ({ success := false, message := "No releases found for " ++ platform ++ " app" },
         [NetCall.listReleasesCall])
      | latest :: _ =>
        let releaseId := releaseIdOf latest
        match env.addTestersOutcome with
        | ApiOutcome.ok _ =>
          ({ success := true,
             message := "Successfully added " ++ email ++ " to " ++ platform ++
               " app distribution (Release: " ++ displayOrId latest releaseId ++ ")" },
           [NetCall.listReleasesCall, NetCall.distributeCall releaseId email])
        | ApiOutcome.err e =>
          ({ success := false,
             message := "Failed to add tester: Failed to add testers: " ++ e },
           [NetCall.listReleasesCall, NetCall.distributeCall releaseId email])

/-! ## Message Ingestion Pipeline (logGroupMessage, lines 498-599)

A message object carries the optional inner message payload with its typed
fields, exactly the fields the extraction chain of lines 506-525 inspects.
Group and sender name lookups over the connection are oracles.  The pipeline
produces an ordered effect trace (console blocks, debounced debug notice,
discovery announcement, parse attempt, dispatch, reply, file persistence)
together with the new shared state (config plus the two process-lifetime
caches). -/

/-- The inner message payload fields inspected by lines 506-525.  The
extendedTextMessage object is modelled by its text field; image, video and
document objects by their optional caption or fileName. -/
structure MsgFields where
  conversation : Option String := none
  extendedTextMessage : Option String := none
  imageMessage : Option (Option String) := none
  videoMessage : Option (Option String) := none
  audioMessage : Bool := false
  documentMessage : Option (Option String) := none
  stickerMessage : Bool := false
deriving DecidableEq, Repr

inductive ContentClass where
  | plainText
  | extendedText
  | image
  | video
  | audio
  | document
  | sticker
  | other
  | unknown
deriving DecidableEq, Repr

/-- The classification implicit in the if-else chain of lines 506-525: the
first truthy field wins.  A conversation field holding the empty string is
falsy, so such a message is not classified as plain text. -/
def classifyContent (m : Option MsgFields) : ContentClass :=
  match m with
  | none => ContentClass.unknown
  | some f =>
    if jsTruthyStr f.conversation then ContentClass.plainText
    else if f.extendedTextMessage.isSome then ContentClass.extendedText
    else if f.imageMessage.isSome then ContentClass.image
    else if f.videoMessage.isSome then ContentClass.video
    else if f.audioMessage then ContentClass.audio
    else if f.documentMessage.isSome then ContentClass.document
    else if f.stickerMessage then ContentClass.sticker
    else ContentClass.other

/-- The caption suffix of lines 513-515: appended only when truthy. -/
def captionSuffix (c : Option String) : String :=
  if jsTruthyStr c then ": " ++ c.getD "" else ""

/-- The display string built by lines 506-525. -/
def extractContent (m : Option MsgFields) : String :=
  match m with
  | none => "Unknown message type"
  | some f =>
    if jsTruthyStr f.conversation then f.conversation.getD ""
    else if f.extendedTextMessage.isSome then f.extendedTextMessage.getD ""
    else if f.imageMessage.isSome then "[Image]" ++ captionSuffix (f.imageMessage.getD none)
    else if f.videoMessage.isSome then "[Video]" ++ captionSuffix (f.videoMessage.getD none)
    else if f.audioMessage then "[Audio Message]"
    else if f.documentMessage.isSome then
      "[Document: " ++
        (if jsTruthyStr (f.documentMessage.getD none) then (f.documentMessage.getD none).getD ""
         else "Unknown") ++ "]"
    else if f.stickerMessage then "[Sticker]"
    else "[Other message type]"

/-- Line 589: the guard in front of processDistributionRequest.  A truthy
conversation field or a present extendedTextMessage object. -/
def isParseableText (m : Option MsgFields) : Bool :=
  match m with
  | none => false
  | some f => jsTruthyStr f.conversation || f.extendedTextMessage.isSome

/-- Lines 554-567: sender display name.  The oracle notify is the truthy
contact notify field when the lookup succeeded with one; otherwise the local
part of the sender id; no sender id gives the fixed fallback. -/
def resolveSenderName (notify : Option String) (senderId : Option String) : String :=
  match senderId with
  | none => "Unknown Sender"
  | some sid =>
    let localPart := String.mk ((sid.toList.splitOn '@').headD [])
    match notify with
    | some n => if n ≠ "" then n else localPart
    | none => localPart

/-- The record built at lines 570-578.  The timestamp is carried as the raw
message timestamp; its ISO rendering is presentation only. -/
structure LogEntry where
  timestampRaw : Nat
  groupId : String
  groupName : String
  senderId : Option String
  senderName : String
  messageId : String
  content : String
deriving DecidableEq, Repr

inductive Effect where
  | discoveryLog : String → Effect
  | debugFiltered : String → Effect
  | messageLog : LogEntry → Effect
  | parseAttempt : String → Effect
  | dispatch : String → String → Effect
  | reply : String → String → Effect
  | persist : LogEntry → Effect
deriving DecidableEq, Repr

def isPersistEffect : Effect → Bool
  | Effect.persist _ => true
  | _ => false

def isDispatchEffect : Effect → Bool
  | Effect.dispatch _ _ => true
  | _ => false

def isReplyEffect : Effect → Bool
  | Effect.reply _ _ => true
  | _ => false

def isMessageLogEffect : Effect → Bool
  | Effect.messageLog _ => true
  | _ => false

def isParseAttemptEffect : Effect → Bool
  | Effect.parseAttempt _ => true
  | _ => false

def isDebugEffect : Effect → Bool
  | Effect.debugFiltered _ => true
  | _ => false

def isDiscoveryEffect : Effect → Bool
  | Effect.discoveryLog _ => true
  | _ => false

structure InboundMsg where
  groupId : String
  senderId : Option String
  messageId : String
  timestampRaw : Nat
  content : Option MsgFields
deriving DecidableEq, Repr

structure PipelineState where
  config : Config
  discoveredGroups : List String
  filteredGroups : List String
deriving DecidableEq, Repr

structure PipelineEnv where
  groupSubject : Option String
  contactNotify : Option String
  dist : DistEnv
deriving DecidableEq, Repr

/-- discoverGroupInfo, lines 459-491, reduced to its observable part: an
announcement once per group id for the process lifetime, guarded by the
discoveredGroups cache. -/
def discoveryStep (discovered : List String) (groupId : String) :
    List Effect × List String :=
  if groupId ∈ discovered then ([], discovered)
  else ([Effect.discoveryLog groupId], groupId :: discovered)

/-- Lines 538-540: discoverGroupInfo runs only when discoveryMode is the
boolean true. -/
def discoveryPart (settings : Settings) (discovered : List String) (groupId : String) :
    List Effect × List String :=
  if settings.discoveryMode = some true then discoveryStep discovered groupId
  else ([], discovered)

/-- processDistributionRequest, lines 321-339: parse, and on a match dispatch
and reply with the checkmark or cross prefix. -/
def processDistributionRequest (denv : DistEnv) (groupId messageContent : String) :
    List Effect :=
  Effect.parseAttempt messageContent ::
    match parseDistributionRequest messageContent with
    | none => []
    | some req =>
      let result := (addTesterToDistribution denv req.email req.platform).1
      let replyMessage := (if result.success then "✅ " else "❌ ") ++ result.message
      [Effect.dispatch req.email req.platform, Effect.reply groupId replyMessage]

/-- logGroupMessage, lines 498-599: content extraction, group name
resolution, optional discovery announcement, filter decision with the
debounced debug notice, sender resolution, console block, conditional
distribution processing, and file persistence, in source order. -/
def logGroupMessage (env : PipelineEnv) (st : PipelineState) (msg : InboundMsg) :
    List Effect × PipelineState :=
  let groupId := msg.groupId
  let messageContent := extractContent msg.content
  let groupName := env.groupSubject.getD groupId
  let disc := discoveryPart st.config.settings st.discoveredGroups groupId
  let fd := shouldMonitorGroup st.config groupId groupName
  if !fd.1 then
    if groupId ∈ st.filteredGroups then
      (disc.1, { config := fd.2.1, discoveredGroups := disc.2,
                 filteredGroups := st.filteredGroups })
    else
      (disc.1 ++ [Effect.debugFiltered groupId],
       { config := fd.2.1, discoveredGroups := disc.2,
         filteredGroups := groupId :: st.filteredGroups })
  else
    let senderName := resolveSenderName env.contactNotify msg.senderId
    let entry : LogEntry :=
      { timestampRaw := msg.timestampRaw, groupId := groupId, groupName := groupName,
        senderId := msg.senderId, senderName := senderName,
        messageId := msg.messageId, content := messageContent }
    let dist :=
      if isParseableText msg.content then
        processDistributionRequest env.dist groupId messageContent
      else []
    (disc.1 ++ Effect.messageLog entry :: dist ++ [Effect.persist entry],
     { config := fd.2.1, discoveredGroups := disc.2,
       filteredGroups := st.filteredGroups })

/-! ## Helper lemmas about splitLast and character classes -/

theorem not_mem_of_all {p : Char → Bool} {l : List Char} (h : l.all p = true)
    {c : Char} (hc : p c = false) : c ∉ l := by
  intro hm
  have ht := List.all_eq_true.mp h _ hm
  rw [hc] at ht
  exact Bool.noConfusion ht

theorem splitLast_none_not_mem {sep : Char} :
    ∀ {cs : List Char}, splitLast sep cs = none → sep ∉ cs := by
  intro cs
  induction cs with
  | nil => intro _ hm; exact List.not_mem_nil sep hm
  | cons c rest ih =>
    intro h hm
    simp only [splitLast] at h
    cases hr : splitLast sep rest with
    | some p => rw [hr] at h; exact Option.noConfusion h
    | none =>
      rw [hr] at h
      by_cases hc : c = sep
      · rw [if_pos hc] at h; exact Option.noConfusion h
      · rcases List.mem_cons.mp hm with h1 | h1
        · exact hc h1.symm
        · exact ih hr h1

theorem splitLast_not_mem_none {sep : Char} :
    ∀ {cs : List Char}, sep ∉ cs → splitLast sep cs = none := by
  intro cs
  induction cs with
  | nil => intro _; rfl
  | cons c rest ih =>
    intro h
    have hc : ¬ c = sep := fun hh => h (by simp [hh])
    have hrest : sep ∉ rest := fun hh => h (List.mem_cons_of_mem _ hh)
    simp only [splitLast, ih hrest, if_neg hc]

theorem splitLast_some {sep : Char} :
    ∀ {cs b a : List Char}, splitLast sep cs = some (b, a) →
      cs = b ++ sep :: a ∧ sep ∉ a := by
  intro cs
  induction cs with
  | nil => intro b a h; exact Option.noConfusion h
  | cons c rest ih =>
    intro b a h
    simp only [splitLast] at h
    cases hr : splitLast sep rest with
    | some p =>
      obtain ⟨bp, ap⟩ := p
      rw [hr] at h
      simp only [Option.some.injEq, Prod.mk.injEq] at h
      obtain ⟨hb, ha⟩ := h
      obtain ⟨hrest, hna⟩ := ih hr
      subst hb; subst ha
      exact ⟨by rw [hrest]; rfl, hna⟩
    | none =>
      rw [hr] at h
      by_cases hc : c = sep
      · rw [if_pos hc] at h
        simp only [Option.some.injEq, Prod.mk.injEq] at h
        obtain ⟨hb, ha⟩ := h
        subst hb; subst ha; subst hc
        exact ⟨rfl, splitLast_none_not_mem hr⟩
      · rw [if_neg hc] at h; exact Option.noConfusion h

theorem splitLast_append {sep : Char} (xs : List Char) {ys : List Char} (h : sep ∉ ys) :
    splitLast sep (xs ++ sep :: ys) = some (xs, ys) := by
  induction xs with
  | nil => simp [splitLast, splitLast_not_mem_none h]
  | cons x xs ih => simp [splitLast, List.append_eq, ih]

theorem isPlatformWord_map {platL : List Char} (h : isPlatformWord platL = true) :
    platL.map Char.toLower = "android".toList ∨ platL.map Char.toLower = "ios".toList := by
  simpa only [isPlatformWord, lowerList, Bool.or_eq_true, beq_iff_eq] using h

theorem not_mem_of_isPlatformWord {platL : List Char} (h : isPlatformWord platL = true)
    {c : Char} (hlow : Char.toLower c = c)
    (h1 : c ∉ "android".toList) (h2 : c ∉ "ios".toList) : c ∉ platL := by
  intro hmem
  have hm : Char.toLower c ∈ platL.map Char.toLower := List.mem_map_of_mem _ hmem
  rw [hlow] at hm
  rcases isPlatformWord_map h with hh | hh <;> rw [hh] at hm
  · exact h1 hm
  · exact h2 hm

/-- Soundness of the matcher against the pattern language: a successful parse
exhibits the decomposition. -/
theorem parse_isSome_decomp {s : String}
    (h : (parseDistributionRequest s).isSome = true) : DistMatch (trimList s.toList) := by
  simp only [parseDistributionRequest] at h
  rcases hat : splitLast '@' (trimList s.toList) with _ | ⟨localL, restL⟩ <;> rw [hat] at h
  · simp at h
  · simp only [] at h
    rcases hc1 : (localL.isEmpty || !localL.all isLocalChar) with _ | _ <;> rw [hc1] at h
    swap
    · simp at h
    simp only [if_false, Bool.false_eq_true] at h
    rcases hdash : splitLast '-' restL with _ | ⟨domL, platL⟩ <;> rw [hdash] at h
    · simp at h
    simp only [] at h
    rcases hplat : isPlatformWord platL with _ | _ <;> rw [hplat] at h
    · simp at h
    simp only [Bool.not_true, if_false] at h
    rcases hdot : splitLast '.' domL with _ | ⟨midL, tldL⟩ <;> rw [hdot] at h
    · simp at h
    simp only [] at h
    rcases hc2 : (midL.isEmpty || !midL.all isDomainChar) with _ | _ <;> rw [hc2] at h
    swap
    · simp at h
    rcases hc3 : (decide (tldL.length < 2) || !tldL.all Char.isAlpha) with _ | _ <;> rw [hc3] at h
    swap
    · simp at h
    obtain ⟨hcs1, -⟩ := splitLast_some hat
    obtain ⟨hcs2, -⟩ := splitLast_some hdash
    obtain ⟨hcs3, -⟩ := splitLast_some hdot
    simp only [Bool.or_eq_false_iff, Bool.not_eq_false'] at hc1 hc2
    simp only [Bool.or_eq_false_iff, Bool.not_eq_false', decide_eq_false_iff_not,
      Nat.not_lt] at hc3
    refine ⟨localL, midL, tldL, platL, ?_, ?_, hc1.2, ?_, hc2.2, hc3.1, hc3.2, hplat⟩
    · rw [hcs1, hcs2, hcs3]
      simp [List.append_assoc]
    · cases localL with
      | nil => simp [List.isEmpty] at hc1
      | cons a l => exact List.cons_ne_nil a l
    · cases midL with
      | nil => simp [List.isEmpty] at hc2
      | cons a l => exact List.cons_ne_nil a l

/-- Completeness of the matcher against the pattern language: any
decomposition makes the parse succeed. -/
theorem decomp_parse_isSome {s : String} (h : DistMatch (trimList s.toList)) :
    (parseDistributionRequest s).isSome = true := by
  obtain ⟨localL, midL, tldL, platL, hcs, hl1, hl2, hm2, hm3, ht1, ht2, hp⟩ := h
  have hdash : '-' ∉ platL :=
    not_mem_of_isPlatformWord hp (by decide) (by decide) (by decide)
  have hdot : '.' ∉ tldL := not_mem_of_all ht2 (by decide)
  have hat : '@' ∉ midL ++ '.' :: (tldL ++ '-' :: platL) := by
    intro hm
    rcases List.mem_append.mp hm with hm | hm
    · exact not_mem_of_all hm3 (by decide) hm
    · rcases List.mem_cons.mp hm with hm | hm
      · exact absurd hm (by decide)
      · rcases List.mem_append.mp hm with hm | hm
        · exact not_mem_of_all ht2 (by decide) hm
        · rcases List.mem_cons.mp hm with hm | hm
          · exact absurd hm (by decide)
          · exact not_mem_of_isPlatformWord hp (by decide) (by decide) (by decide) hm
  have hMeq : midL ++ '.' :: (tldL ++ '-' :: platL) = (midL ++ '.' :: tldL) ++ '-' :: platL := by
    simp [List.append_assoc]
  have hle : localL.isEmpty = false := by
    cases localL with
    | nil => exact absurd rfl hl1
    | cons a l => rfl
  have hme : midL.isEmpty = false := by
    cases midL with
    | nil => exact absurd rfl hm2
    | cons a l => rfl
  have hlen : decide (tldL.length < 2) = false := decide_eq_false (Nat.not_lt.mpr ht1)
  simp only [parseDistributionRequest]
  rw [hcs, splitLast_append localL hat]
  simp only [hle, hl2, Bool.not_true, Bool.or_false, Bool.false_or, if_false]
  rw [hMeq, splitLast_append _ hdash]
  simp only [hp, Bool.not_true, if_false]
  rw [splitLast_append _ hdot]
  simp only [hme, hm3, ht2, hlen, Bool.not_true, Bool.or_false, Bool.false_or, if_false]
  rfl

/-! ## Claim C3 -/

/-- Claim C3 counterexample: the source matcher accepts a string whose email
part has an empty domain label between two dots, which is not a
syntactically valid email in the sense of the claim wording as rendered by
claimAcceptsDistribution; so parse returns a result on an input the claim
says it must reject. -/
theorem claim_c3_counterexample :
    parseDistributionRequest "a@b..com-android" =
      some { email := "a@b..com", platform := "android" } ∧
    claimAcceptsDistribution "a@b..com-android" = false := by
  constructor
  · decide
  · decide

/-- Claim C3 (amended): after trimming, parse returns a result exactly when
the character list splits as local part, at sign, domain middle, dot, final
label and platform word, where the local part is a nonempty run of letters,
digits, dot, underscore, percent, plus and hyphen, the domain middle is any
nonempty run of letters, digits, dots and hyphens (empty or hyphen-only
labels are therefore accepted), the final label is two or more letters, and
the platform is case-insensitively android or ios; on a match the email and
platform are returned lower-cased, as witnessed on the four concrete
examples of the claim. -/
theorem claim_c3_amended :
    (∀ s : String,
      (parseDistributionRequest s).isSome = true ↔ DistMatch (trimList s.toList)) ∧
    parseDistributionRequest "john.doe@company.com-android" =
      some { email := "john.doe@company.com", platform := "android" } ∧
    parseDistributionRequest "JOHN@X.COM-IOS" =
      some { email := "john@x.com", platform := "ios" } ∧
    parseDistributionRequest "not-an-email-android" = none ∧
    parseDistributionRequest "a@b.com-windows" = none :=
  ⟨fun _ => ⟨parse_isSome_decomp, decomp_parse_isSome⟩,
   by decide, by decide, by decide, by decide⟩

/-! ## Group Filter lemmas -/

/-- Entries that are disabled or match neither by id nor by name are passed
over by the loop unchanged. -/
theorem shouldMonitorLoop_append_skip (settings : Settings) (gid gname : String)
    (pre l : List TargetGroup)
    (hpre : ∀ p ∈ pre, isEnabledEntry p = false ∨
      (matchesById p gid = false ∧ matchesByName settings p gname = false)) :
    shouldMonitorLoop settings gid gname (pre ++ l) =
      ((shouldMonitorLoop settings gid gname l).1,
       pre ++ (shouldMonitorLoop settings gid gname l).2.1,
       (shouldMonitorLoop settings gid gname l).2.2) := by
  induction pre with
  | nil => simp
  | cons p pre ih =>
    have hp := hpre p (List.mem_cons_self p pre)
    have hrest : ∀ q ∈ pre, isEnabledEntry q = false ∨
        (matchesById q gid = false ∧ matchesByName settings q gname = false) :=
      fun q hq => hpre q (List.mem_cons_of_mem p hq)
    rcases hp with hp | ⟨hp1, hp2⟩
    · simp [shouldMonitorLoop, hp, ih hrest]
    · simp [shouldMonitorLoop, hp1, hp2, ih hrest]

theorem forall2_id_refl :
    ∀ l : List TargetGroup,
      List.Forall₂ (fun o n => jsTruthyStr o.id = true → n.id = o.id) l l := by
  intro l
  induction l with
  | nil => exact List.Forall₂.nil
  | cons g rest ih => exact List.Forall₂.cons (fun _ => rfl) ih

/-- The loop never changes an id that is already truthy: the only mutation
sets an untruthy id. -/
theorem shouldMonitorLoop_ids_preserved (settings : Settings) (gid gname : String) :
    ∀ l : List TargetGroup,
      List.Forall₂ (fun o n => jsTruthyStr o.id = true → n.id = o.id) l
        (shouldMonitorLoop settings gid gname l).2.1 := by
  intro l
  induction l with
  | nil => exact List.Forall₂.nil
  | cons g rest ih =>
    by_cases he : isEnabledEntry g
    · by_cases hid : matchesById g gid
      · simp only [shouldMonitorLoop, he, hid, if_true]
        exact List.Forall₂.cons (fun _ => rfl) (forall2_id_refl rest)
      · by_cases hname : matchesByName settings g gname
        · by_cases htr : jsTruthyStr g.id
          · simp only [shouldMonitorLoop, he, hid, hname, htr]
            simp only [if_true, if_false, Bool.false_eq_true, if_neg, reduceIte]
            exact List.Forall₂.cons (fun _ => rfl) (forall2_id_refl rest)
          · simp only [shouldMonitorLoop, he, hid, hname, htr]
            simp only [if_true, Bool.false_eq_true, reduceIte]
            refine List.Forall₂.cons ?_ (forall2_id_refl rest)
            intro hc
            rw [hc] at htr
            exact absurd rfl htr
        · simp only [shouldMonitorLoop, he, hid, hname]
          simp only [Bool.false_eq_true, reduceIte, if_true]
          exact List.Forall₂.cons (fun _ => rfl) ih
    · simp only [shouldMonitorLoop, he]
      simp only [Bool.false_eq_true, reduceIte]
      exact List.Forall₂.cons (fun _ => rfl) ih

/-- Ids are preserved by the whole filter call whenever already truthy. -/
theorem shouldMonitorGroup_ids_preserved (cfg : Config) (gid gname : String) :
    List.Forall₂ (fun o n => jsTruthyStr o.id = true → n.id = o.id)
      cfg.targetGroups (shouldMonitorGroup cfg gid gname).2.1.targetGroups := by
  cases h0 : cfg.targetGroups.isEmpty with
  | true =>
    simp only [shouldMonitorGroup, h0, reduceIte]
    exact forall2_id_refl _
  | false =>
    cases h1 : (cfg.targetGroups.filter isEnabledEntry).isEmpty with
    | true =>
      simp only [shouldMonitorGroup, h0, h1, Bool.false_eq_true, reduceIte]
      exact forall2_id_refl _
    | false =>
      simp only [shouldMonitorGroup, h0, h1, Bool.false_eq_true, reduceIte]
      exact shouldMonitorLoop_ids_preserved cfg.settings gid gname cfg.targetGroups

/-- The decision of the loop only depends on the entries that are not
strictly disabled. -/
theorem shouldMonitorLoop_filter_decision (settings : Settings) (gid gname : String) :
    ∀ l : List TargetGroup,
      (shouldMonitorLoop settings gid gname l).1 =
        (shouldMonitorLoop settings gid gname (l.filter isEnabledEntry)).1 := by
  intro l
  induction l with
  | nil => rfl
  | cons g rest ih =>
    by_cases he : isEnabledEntry g
    · rw [List.filter_cons_of_pos he]
      by_cases hid : matchesById g gid
      · simp [shouldMonitorLoop, he, hid]
      · by_cases hname : matchesByName settings g gname
        · by_cases htr : jsTruthyStr g.id <;>
            simp [shouldMonitorLoop, he, hid, hname, htr]
        · simp [shouldMonitorLoop, he, hid, hname, ih]
    · rw [List.filter_cons_of_neg (by simpa using he)]
      simp [shouldMonitorLoop, he, ih]

/-- A membered enabled entry that matches forces a true decision. -/
theorem shouldMonitorLoop_true_of_matches (settings : Settings) (gid gname : String)
    (g : TargetGroup) (hen : isEnabledEntry g = true)
    (hmatch : matchesById g gid = true ∨ matchesByName settings g gname = true) :
    ∀ l : List TargetGroup, g ∈ l → (shouldMonitorLoop settings gid gname l).1 = true := by
  intro l
  induction l with
  | nil => intro hm; exact absurd hm (List.not_mem_nil g)
  | cons p rest ih =>
    intro hm
    by_cases hpe : isEnabledEntry p
    · by_cases hid : matchesById p gid
      · simp [shouldMonitorLoop, hpe, hid]
      · by_cases hname : matchesByName settings p gname
        · by_cases htr : jsTruthyStr p.id <;>
            simp [shouldMonitorLoop, hpe, hid, hname, htr]
        · rcases List.mem_cons.mp hm with hm | hm
          · subst hm
            rcases hmatch with hmm | hmm
            · rw [hmm] at hid; exact absurd rfl hid
            · rw [hmm] at hname; exact absurd rfl hname
          · simp [shouldMonitorLoop, hpe, hid, hname, ih hm]
    · rcases List.mem_cons.mp hm with hm | hm
      · subst hm; rw [hen] at hpe; exact absurd rfl hpe
      · simp [shouldMonitorLoop, hpe, ih hm]

/-! ## Concrete fixtures -/

def fbFix : FirebaseConfig :=
  { serviceAccountKeyPath := "./firebase-service-account-key.json",
    projectId := "your-firebase-project-id",
    androidAppId := some "1:123456789:android:abcdef123456",
    iosAppId := some "1:123456789:ios:abcdef123456" }

def defaultSettings : Settings :=
  { logAllGroupsIfEmpty := some true, caseSensitiveGroupNames := some false,
    discoveryMode := some false }

/-! ## Claim C1 -/

def cfgC1x : Config :=
  { targetGroups :=
      [{ name := some "Announcements", id := some "first@g.us", enabled := JsVal.vBool true },
       { name := some "Test Group", id := none, enabled := JsVal.vBool true }],
    settings := defaultSettings, firebase := fbFix }

/-- Claim C1 counterexample: cfgC1x has an enabled entry named Test Group
with unset id, and the call arguments match that entry under the configured
case-sensitivity rule (first conjunct); yet the call returns with the config
unchanged and zero persistences scheduled, because an earlier entry already
matches by id and the loop stops there.  The claim requires the entry id to
be set to the group id and exactly one persistence to be scheduled. -/
theorem claim_c1_counterexample :
    matchesByName cfgC1x.settings
      { name := some "Test Group", id := none, enabled := JsVal.vBool true } "Test Group" = true ∧
    shouldMonitorGroup cfgC1x "first@g.us" "Test Group" = (true, cfgC1x, 0) := by
  constructor
  · decide
  · decide

/-- Claim C1 (amended): when the matching entry is the first one the loop
reaches, that is, every earlier entry is disabled or matches neither by id
nor by name, and the group id is nonempty, a name match on an entry with
unset id returns true, writes the group id into that entry and schedules
exactly one persistence; the subsequent identical call returns true with no
further write; and no call of the filter on any config ever clears an id
that is set to a truthy value. -/
theorem claim_c1_amended (settings : Settings) (fb : FirebaseConfig)
    (pre post : List TargetGroup) (g : TargetGroup) (gid gname : String)
    (hpre : ∀ p ∈ pre, isEnabledEntry p = false ∨
      (matchesById p gid = false ∧ matchesByName settings p gname = false))
    (hen : isEnabledEntry g = true)
    (hname : matchesByName settings g gname = true)
    (hid : jsTruthyStr g.id = false)
    (hgid : gid ≠ "") :
    shouldMonitorGroup
        { targetGroups := pre ++ g :: post, settings := settings, firebase := fb } gid gname =
      (true,
       { targetGroups := pre ++ { g with id := some gid } :: post,
         settings := settings, firebase := fb }, 1) ∧
    shouldMonitorGroup
        { targetGroups := pre ++ { g with id := some gid } :: post,
          settings := settings, firebase := fb } gid gname =
      (true,
       { targetGroups := pre ++ { g with id := some gid } :: post,
         settings := settings, firebase := fb }, 0) ∧
    (∀ cfg : Config, ∀ gid2 gname2 : String,
      List.Forall₂ (fun o n => jsTruthyStr o.id = true → n.id = o.id)
        cfg.targetGroups (shouldMonitorGroup cfg gid2 gname2).2.1.targetGroups) := by
  have hmid : matchesById g gid = false := by
    simp [matchesById, hid]
  have hen2 : isEnabledEntry { g with id := some gid } = true := by
    simpa [isEnabledEntry] using hen
  have hid2 : matchesById { g with id := some gid } gid = true := by
    simp [matchesById, jsTruthyStr, hgid]
  have h0 : (pre ++ g :: post).isEmpty = false := by
    cases hl : pre ++ g :: post
    · exact absurd hl (List.append_ne_nil_of_right_ne_nil pre (List.cons_ne_nil g post))
    · rfl
  have h0b : (pre ++ { g with id := some gid } :: post).isEmpty = false := by
    cases hl : pre ++ { g with id := some gid } :: post
    · exact absurd hl
        (List.append_ne_nil_of_right_ne_nil pre
          (List.cons_ne_nil { g with id := some gid } post))
    · rfl
  have h1 : ((pre ++ g :: post).filter isEnabledEntry).isEmpty = false := by
    have hgm : g ∈ (pre ++ g :: post).filter isEnabledEntry :=
      List.mem_filter.mpr ⟨List.mem_append_right pre (List.mem_cons_self g post), hen⟩
    cases hl : (pre ++ g :: post).filter isEnabledEntry
    · rw [hl] at hgm; exact absurd hgm (List.not_mem_nil g)
    · rfl
  have h1b : ((pre ++ { g with id := some gid } :: post).filter isEnabledEntry).isEmpty
      = false := by
    have hgm : { g with id := some gid } ∈
        (pre ++ { g with id := some gid } :: post).filter isEnabledEntry :=
      List.mem_filter.mpr
        ⟨List.mem_append_right pre (List.mem_cons_self _ post), hen2⟩
    cases hl : (pre ++ { g with id := some gid } :: post).filter isEnabledEntry
    · rw [hl] at hgm; exact absurd hgm (List.not_mem_nil _)
    · rfl
  have hloop1 : shouldMonitorLoop settings gid gname (g :: post) =
      (true, { g with id := some gid } :: post, 1) := by
    simp [shouldMonitorLoop, hen, hmid, hname, hid]
  have hloop2 : shouldMonitorLoop settings gid gname ({ g with id := some gid } :: post) =
      (true, { g with id := some gid } :: post, 0) := by
    simp [shouldMonitorLoop, hen2, hid2]
  have hfull1 : shouldMonitorLoop settings gid gname (pre ++ g :: post) =
      (true, pre ++ { g with id := some gid } :: post, 1) := by
    rw [shouldMonitorLoop_append_skip settings gid gname pre (g :: post) hpre, hloop1]
  have hfull2 : shouldMonitorLoop settings gid gname
      (pre ++ { g with id := some gid } :: post) =
      (true, pre ++ { g with id := some gid } :: post, 0) := by
    rw [shouldMonitorLoop_append_skip settings gid gname pre _ hpre, hloop2]
  refine ⟨?_, ?_, fun cfg gid2 gname2 => shouldMonitorGroup_ids_preserved cfg gid2 gname2⟩
  · simp only [shouldMonitorGroup, h0, h1, Bool.false_eq_true, reduceIte, hfull1]
  · simp only [shouldMonitorGroup, h0b, h1b, Bool.false_eq_true, reduceIte, hfull2]

/-- Witness for claim_c1_amended at the single-entry configuration of the
spec: the id is learned on the first call, the second call is a pure
read. -/
theorem claim_c1_amended_witness :
    shouldMonitorGroup
        { targetGroups :=
            [] ++ { name := some "Test Group", id := none, enabled := JsVal.vBool true } :: [],
          settings := defaultSettings, firebase := fbFix } "abc@g.us" "Test Group" =
      (true,
       { targetGroups :=
           [] ++ { name := some "Test Group", id := some "abc@g.us",
                   enabled := JsVal.vBool true } :: [],
         settings := defaultSettings, firebase := fbFix }, 1) ∧
    shouldMonitorGroup
        { targetGroups :=
            [] ++ { name := some "Test Group", id := some "abc@g.us",
                    enabled := JsVal.vBool true } :: [],
          settings := defaultSettings, firebase := fbFix } "abc@g.us" "Test Group" =
      (true,
       { targetGroups :=
           [] ++ { name := some "Test Group", id := some "abc@g.us",
                   enabled := JsVal.vBool true } :: [],
         settings := defaultSettings, firebase := fbFix }, 0) ∧
    (∀ cfg : Config, ∀ gid2 gname2 : String,
      List.Forall₂ (fun o n => jsTruthyStr o.id = true → n.id = o.id)
        cfg.targetGroups (shouldMonitorGroup cfg gid2 gname2).2.1.targetGroups) :=
  claim_c1_amended defaultSettings fbFix [] []
    { name := some "Test Group", id := none, enabled := JsVal.vBool true }
    "abc@g.us" "Test Group" (by simp) (by decide) (by decide) (by decide) (by decide)

/-! ## Claim C2 -/

/-- Claim C2 counterexample: with an empty targetGroups list and
logAllGroupsIfEmpty set to false, the filter returns false, although the
claim says it returns true regardless of that setting. -/
theorem claim_c2_counterexample :
    shouldMonitorGroup
      { targetGroups := [],
        settings := { logAllGroupsIfEmpty := some false, caseSensitiveGroupNames := some false,
                      discoveryMode := some false },
        firebase := fbFix } "abc@g.us" "Test Group" =
    (false,
     { targetGroups := [],
       settings := { logAllGroupsIfEmpty := some false, caseSensitiveGroupNames := some false,
                     discoveryMode := some false },
       firebase := fbFix }, 0) := by
  decide

/-- Claim C2 (amended): when targetGroups is empty the filter returns the
logAllGroupsIfEmpty setting compared strictly against false, that is, true
for every group unless the setting is the boolean false; the config is
unchanged and no persistence is scheduled. -/
theorem claim_c2_amended (settings : Settings) (fb : FirebaseConfig) (gid gname : String) :
    shouldMonitorGroup { targetGroups := [], settings := settings, firebase := fb } gid gname =
      ((if settings.logAllGroupsIfEmpty = some false then false else true),
       { targetGroups := [], settings := settings, firebase := fb }, 0) := by
  cases hs : settings.logAllGroupsIfEmpty with
  | none => simp [shouldMonitorGroup, hs]
  | some b => cases b <;> simp [shouldMonitorGroup, hs]

/-! ## Claim C7 -/

/-- Claim C7: entries whose enabled field is strictly false never influence
the decision: the filter decides exactly as it would on the config whose
targetGroups keep only the not-strictly-disabled entries.  In particular a
disabled entry never causes a true decision, even on exact id or name
equality. -/
theorem claim_c7 (cfg : Config) (gid gname : String) :
    (shouldMonitorGroup cfg gid gname).1 =
      (shouldMonitorGroup
        { cfg with targetGroups := cfg.targetGroups.filter isEnabledEntry } gid gname).1 := by
  by_cases h0 : cfg.targetGroups.isEmpty
  · have h0e : cfg.targetGroups = [] := by
      cases hl : cfg.targetGroups
      · rfl
      · rw [hl] at h0; exact Bool.noConfusion h0
    simp [shouldMonitorGroup, h0e]
  · have h0f : cfg.targetGroups.isEmpty = false := by
      cases hb : cfg.targetGroups.isEmpty
      · rfl
      · exact absurd hb h0
    by_cases h1 : (cfg.targetGroups.filter isEnabledEntry).isEmpty
    · simp [shouldMonitorGroup, h0f, h1]
    · have h1f : (cfg.targetGroups.filter isEnabledEntry).isEmpty = false := by
        cases hb : (cfg.targetGroups.filter isEnabledEntry).isEmpty
        · rfl
        · exact absurd hb h1
      have h2 : ((cfg.targetGroups.filter isEnabledEntry).filter isEnabledEntry) =
          cfg.targetGroups.filter isEnabledEntry := by
        rw [List.filter_filter]
        simp
      simp only [shouldMonitorGroup, h0f, h1f, h2, Bool.false_eq_true, reduceIte]
      exact shouldMonitorLoop_filter_decision cfg.settings gid gname cfg.targetGroups

/-! ## Claim C10 -/

/-- Claim C10: an entry whose enabled field is anything other than the
boolean false takes part in matching, and a match on it forces a true
decision wherever it sits in the list; the entry is also part of the
monitored-group announcement emitted on connection open. -/
theorem claim_c10 (cfg : Config) (g : TargetGroup) (gid gname : String)
    (hmem : g ∈ cfg.targetGroups)
    (hen : g.enabled ≠ JsVal.vBool false)
    (hmatch : matchesById g gid = true ∨ matchesByName cfg.settings g gname = true) :
    (shouldMonitorGroup cfg gid gname).1 = true ∧ g ∈ announcedGroups cfg := by
  have henb : isEnabledEntry g = true := by simp [isEnabledEntry, hen]
  have h0 : cfg.targetGroups.isEmpty = false := by
    cases hl : cfg.targetGroups
    · rw [hl] at hmem; exact absurd hmem (List.not_mem_nil g)
    · rfl
  have h1 : (cfg.targetGroups.filter isEnabledEntry).isEmpty = false := by
    have hgm : g ∈ cfg.targetGroups.filter isEnabledEntry :=
      List.mem_filter.mpr ⟨hmem, henb⟩
    cases hl : cfg.targetGroups.filter isEnabledEntry
    · rw [hl] at hgm; exact absurd hgm (List.not_mem_nil g)
    · rfl
  constructor
  · simp only [shouldMonitorGroup, h0, h1, Bool.false_eq_true, reduceIte]
    exact shouldMonitorLoop_true_of_matches cfg.settings gid gname g henb hmatch
      cfg.targetGroups hmem
  · exact List.mem_filter.mpr ⟨hmem, by simpa [isEnabledEntry] using henb⟩

def gFix : TargetGroup := { name := some "Team Chat", id := none, enabled := JsVal.vNum 0 }

def cfgFix : Config :=
  { targetGroups :=
      [{ name := some "Ops", id := some "ops@g.us", enabled := JsVal.vBool false }, gFix],
    settings := defaultSettings, firebase := fbFix }

/-- Witness for claim_c10: an entry whose enabled field is the number zero,
which is not the boolean false, matches case-insensitively by name and is
announced. -/
theorem claim_c10_witness :
    gFix ∈ cfgFix.targetGroups ∧
    gFix.enabled ≠ JsVal.vBool false ∧
    matchesByName cfgFix.settings gFix "team chat" = true ∧
    ((shouldMonitorGroup cfgFix "team@g.us" "team chat").1 = true ∧
      gFix ∈ announcedGroups cfgFix) :=
  ⟨by decide, by decide, by decide,
   claim_c10 cfgFix gFix "team@g.us" "team chat" (by decide) (by decide)
     (Or.inr (by decide))⟩

/-! ## Claim C4 -/

def denvErr : DistEnv :=
  { firebaseReady := true, firebase := fbFix,
    listReleasesOutcome :=
      ApiOutcome.err "getaddrinfo ENOTFOUND firebaseappdistribution.googleapis.com",
    addTestersOutcome := ApiOutcome.ok () }

/-- Claim C4 counterexample: with the release-listing call failing with a
network error, addTester returns a failure outcome whose message is the
fixed no-releases text; the upstream error text is not embedded in it, so
the claim fails at this input. -/
theorem claim_c4_counterexample :
    (addTesterToDistribution denvErr "john@x.com" "android").1 =
      { success := false, message := "No releases found for android app" } ∧
    ¬ List.IsInfix "ENOTFOUND".toList
        (addTesterToDistribution denvErr "john@x.com" "android").1.message.toList := by
  constructor
  · decide
  · decide

/-- Claim C4 (amended): when the dispatcher is ready, the platform app id is
configured and the release-listing call fails, the error is swallowed by the
listing helper (which logs it and returns the empty list), so addTester
returns failure with the fixed no-releases message, the upstream text is not
embedded, and exactly one listing attempt is made with no retry and no
distribute call. -/
theorem claim_c4_amended (env : DistEnv) (email platform e : String)
    (hinit : env.firebaseReady = true)
    (happ : jsTruthyStr (appIdFor env.firebase platform) = true)
    (herr : env.listReleasesOutcome = ApiOutcome.err e) :
    addTesterToDistribution env email platform =
      ({ success := false, message := "No releases found for " ++ platform ++ " app" },
       [NetCall.listReleasesCall]) := by
  simp only [addTesterToDistribution, hinit, happ, Bool.not_true, Bool.false_eq_true,
    reduceIte, listAppDistributionReleases, herr]

/-- Witness for claim_c4_amended at a concrete failing environment. -/
theorem claim_c4_amended_witness :
    denvErr.firebaseReady = true ∧
    jsTruthyStr (appIdFor denvErr.firebase "android") = true ∧
    denvErr.listReleasesOutcome =
      ApiOutcome.err "getaddrinfo ENOTFOUND firebaseappdistribution.googleapis.com" ∧
    addTesterToDistribution denvErr "john@x.com" "android" =
      ({ success := false, message := "No releases found for android app" },
       [NetCall.listReleasesCall]) :=
  ⟨rfl, by decide, rfl,
   claim_c4_amended denvErr "john@x.com" "android" _ rfl (by decide) rfl⟩

/-! ## Claim C8 -/

/-- Claim C8: with the dispatcher ready and the platform app id absent (or
empty, which the source treats the same through truthiness), addTester
returns failure with a message naming the missing app-id config key, and the
list of attempted external requests is empty. -/
theorem claim_c8 (env : DistEnv) (email platform : String)
    (hinit : env.firebaseReady = true)
    (happ : jsTruthyStr (appIdFor env.firebase platform) = false) :
    addTesterToDistribution env email platform =
      ({ success := false,
         message := "No " ++ platform ++ " app ID configured in config.json (" ++
           appIdKeyFor platform ++ ")" }, []) := by
  simp only [addTesterToDistribution, hinit, happ, Bool.not_true, Bool.not_false,
    Bool.false_eq_true, reduceIte]

def denvNoIos : DistEnv :=
  { firebaseReady := true,
    firebase := { fbFix with iosAppId := none },
    listReleasesOutcome := ApiOutcome.ok [], addTestersOutcome := ApiOutcome.ok () }

/-- Witness for claim_c8 with the ios app id absent from the config. -/
theorem claim_c8_witness :
    denvNoIos.firebaseReady = true ∧
    jsTruthyStr (appIdFor denvNoIos.firebase "ios") = false ∧
    addTesterToDistribution denvNoIos "john@x.com" "ios" =
      ({ success := false, message := "No ios app ID configured in config.json (iosAppId)" },
       []) :=
  ⟨rfl, by decide, claim_c8 denvNoIos "john@x.com" "ios" rfl (by decide)⟩

/-! ## Pipeline lemmas -/

theorem discoveryPart_effects {settings : Settings} {d : List String} {gid : String} :
    ∀ e ∈ (discoveryPart settings d gid).1, e = Effect.discoveryLog gid := by
  intro e he
  unfold discoveryPart discoveryStep at he
  by_cases hd : settings.discoveryMode = some true
  · rw [if_pos hd] at he
    by_cases hm : gid ∈ d
    · rw [if_pos hm] at he; exact absurd he (List.not_mem_nil e)
    · rw [if_neg hm] at he; simpa using he
  · rw [if_neg hd] at he; exact absurd he (List.not_mem_nil e)

theorem processDistributionRequest_shapes (denv : DistEnv) (gid c : String) :
    ∀ e ∈ processDistributionRequest denv gid c,
      isPersistEffect e = false ∧ isMessageLogEffect e = false ∧
      isDebugEffect e = false ∧ isDiscoveryEffect e = false := by
  intro e he
  unfold processDistributionRequest at he
  rcases List.mem_cons.mp he with he | he
  · subst he; exact ⟨rfl, rfl, rfl, rfl⟩
  · cases hp : parseDistributionRequest c with
    | none => rw [hp] at he; exact absurd he (List.not_mem_nil e)
    | some req =>
      rw [hp] at he
      simp only [List.mem_cons, List.not_mem_nil, or_false] at he
      rcases he with he | he <;> subst he <;> exact ⟨rfl, rfl, rfl, rfl⟩

theorem exists_last_persist {A C : List Effect} {entry : LogEntry}
    (hA : ∀ e ∈ A, isPersistEffect e = false)
    (hC : ∀ e ∈ C, isPersistEffect e = false) :
    ∃ rest en,
      (A ++ Effect.messageLog entry :: C) ++ [Effect.persist entry] =
        rest ++ [Effect.persist en] ∧
      rest.all (fun e => !isPersistEffect e) = true := by
  refine ⟨A ++ Effect.messageLog entry :: C, entry, rfl, ?_⟩
  · rw [List.all_eq_true]
    intro e he
    rcases List.mem_append.mp he with he | he
    · simp [hA e he]
    · rcases List.mem_cons.mp he with he | he
      · subst he; rfl
      · simp [hC e he]

/-- The behaviour of the pipeline on a message the filter rejects. -/
theorem logGroupMessage_reject (env : PipelineEnv) (st : PipelineState) (msg : InboundMsg)
    (hrej : (shouldMonitorGroup st.config msg.groupId
      (env.groupSubject.getD msg.groupId)).1 = false) :
    logGroupMessage env st msg =
      ((discoveryPart st.config.settings st.discoveredGroups msg.groupId).1 ++
         (if msg.groupId ∈ st.filteredGroups then []
          else [Effect.debugFiltered msg.groupId]),
       { config := (shouldMonitorGroup st.config msg.groupId
           (env.groupSubject.getD msg.groupId)).2.1,
         discoveredGroups := (discoveryPart st.config.settings st.discoveredGroups msg.groupId).2,
         filteredGroups := if msg.groupId ∈ st.filteredGroups then st.filteredGroups
                           else msg.groupId :: st.filteredGroups }) := by
  by_cases hmem : msg.groupId ∈ st.filteredGroups
  · simp [logGroupMessage, hrej, hmem]
  · simp [logGroupMessage, hrej, hmem]

theorem discoveryPart_filter_debug {settings : Settings} {d : List String} {gid : String} :
    (discoveryPart settings d gid).1.filter isDebugEffect = [] := by
  rw [List.filter_eq_nil_iff]
  intro a ha
  rw [discoveryPart_effects a ha]
  simp [isDebugEffect]

/-- The guard in front of the parser is exactly the text classification. -/
theorem isParseableText_iff_classify (m : Option MsgFields) :
    isParseableText m = true ↔
      (classifyContent m = ContentClass.plainText ∨
       classifyContent m = ContentClass.extendedText) := by
  cases m with
  | none => simp [isParseableText, classifyContent]
  | some f =>
    by_cases h1 : jsTruthyStr f.conversation
    · simp [isParseableText, classifyContent, h1]
    · by_cases h2 : f.extendedTextMessage.isSome
      · simp [isParseableText, classifyContent, h1, h2]
      · have hr1 : classifyContent (some f) ≠ ContentClass.plainText := by
          simp only [classifyContent, h1, h2, Bool.false_eq_true, reduceIte]
          (repeat' split) <;> simp
        have hr2 : classifyContent (some f) ≠ ContentClass.extendedText := by
          simp only [classifyContent, h1, h2, Bool.false_eq_true, reduceIte]
          (repeat' split) <;> simp
        have hl : isParseableText (some f) = false := by
          simp [isParseableText, h1, h2]
        rw [hl]
        simp only [Bool.false_eq_true, false_iff]
        rintro (h | h)
        · exact hr1 h
        · exact hr2 h

/-! ## Claim C5 -/

def denvOk : DistEnv :=
  { firebaseReady := true, firebase := fbFix,
    listReleasesOutcome := ApiOutcome.ok
      [{ name := "projects/p/apps/a/releases/r1", displayVersion := some "1.0" }],
    addTestersOutcome := ApiOutcome.ok () }

def envC5 : PipelineEnv :=
  { groupSubject := some "Release Group", contactNotify := some "Bob", dist := denvOk }

def stC5 : PipelineState :=
  { config := { targetGroups := [], settings := defaultSettings, firebase := fbFix },
    discoveredGroups := [], filteredGroups := [] }

def msgC5 : InboundMsg :=
  { groupId := "g@g.us", senderId := some "s@s.whatsapp.net", messageId := "m1",
    timestampRaw := 0, content := some { conversation := some "a@b.com-android" } }

/-- Claim C5 counterexample: on a monitored text message that is a valid
distribution request, the trace places the dispatch at index 2 and the reply
at index 3, both strictly before the file persistence at index 4; the claim
says persistence happens before dispatch and reply. -/
theorem claim_c5_counterexample :
    (logGroupMessage envC5 stC5 msgC5).1.findIdx? isDispatchEffect = some 2 ∧
    (logGroupMessage envC5 stC5 msgC5).1.findIdx? isReplyEffect = some 3 ∧
    (logGroupMessage envC5 stC5 msgC5).1.findIdx? isPersistEffect = some 4 := by
  refine ⟨?_, ?_, ?_⟩ <;> decide

/-- Claim C5 (amended): for every message that passes the filter, the file
persistence of the log entry is the final effect of the pipeline, occurring
exactly once and after the console block and any distribution dispatch and
reply. -/
theorem claim_c5_amended (env : PipelineEnv) (st : PipelineState) (msg : InboundMsg)
    (hmon : (shouldMonitorGroup st.config msg.groupId
      (env.groupSubject.getD msg.groupId)).1 = true) :
    ∃ rest entry, (logGroupMessage env st msg).1 = rest ++ [Effect.persist entry] ∧
      rest.all (fun e => !isPersistEffect e) = true := by
  simp only [logGroupMessage, hmon, Bool.not_true, Bool.false_eq_true, reduceIte]
  refine exists_last_persist ?_ ?_
  · intro e he
    rw [discoveryPart_effects e he]; rfl
  · by_cases hp : isParseableText msg.content
    · rw [if_pos hp]
      intro e he
      exact (processDistributionRequest_shapes env.dist msg.groupId
        (extractContent msg.content) e he).1
    · rw [if_neg hp]
      intro e he
      exact absurd he (List.not_mem_nil e)

/-- Witness for claim_c5_amended at a monitored distribution request. -/
theorem claim_c5_amended_witness :
    (shouldMonitorGroup stC5.config msgC5.groupId
      (envC5.groupSubject.getD msgC5.groupId)).1 = true ∧
    (∃ rest entry, (logGroupMessage envC5 stC5 msgC5).1 = rest ++ [Effect.persist entry] ∧
      rest.all (fun e => !isPersistEffect e) = true) :=
  ⟨by decide, claim_c5_amended envC5 stC5 msgC5 (by decide)⟩

/-! ## Claim C6 -/

/-- Claim C6: when the filter rejects, the pipeline halts for that message:
the trace holds no persistence, no dispatch, no reply, no console message
block and no parse attempt; the debounced debug notice appears exactly when
the group id was not yet in the filtered cache; the group id is cached; and
any later rejected message from the same group emits no debug notice. -/
theorem claim_c6 (env : PipelineEnv) (st : PipelineState) (msg : InboundMsg)
    (hrej : (shouldMonitorGroup st.config msg.groupId
      (env.groupSubject.getD msg.groupId)).1 = false) :
    (∀ e ∈ (logGroupMessage env st msg).1,
      isPersistEffect e = false ∧ isDispatchEffect e = false ∧
      isReplyEffect e = false ∧ isMessageLogEffect e = false ∧
      isParseAttemptEffect e = false) ∧
    (logGroupMessage env st msg).1.filter isDebugEffect =
      (if msg.groupId ∈ st.filteredGroups then []
       else [Effect.debugFiltered msg.groupId]) ∧
    msg.groupId ∈ (logGroupMessage env st msg).2.filteredGroups ∧
    (∀ env2 : PipelineEnv, ∀ msg2 : InboundMsg, msg2.groupId = msg.groupId →
      (shouldMonitorGroup (logGroupMessage env st msg).2.config msg2.groupId
        (env2.groupSubject.getD msg2.groupId)).1 = false →
      (logGroupMessage env2 (logGroupMessage env st msg).2 msg2).1.filter
        isDebugEffect = []) := by
  rw [logGroupMessage_reject env st msg hrej]
  refine ⟨?_, ?_, ?_, ?_⟩
  · intro e he
    rcases List.mem_append.mp he with he | he
    · rw [discoveryPart_effects e he]
      exact ⟨rfl, rfl, rfl, rfl, rfl⟩
    · by_cases hmem : msg.groupId ∈ st.filteredGroups
      · rw [if_pos hmem] at he
        exact absurd he (List.not_mem_nil e)
      · rw [if_neg hmem] at he
        rcases List.mem_cons.mp he with he | he
        · subst he; exact ⟨rfl, rfl, rfl, rfl, rfl⟩
        · exact absurd he (List.not_mem_nil e)
  · rw [List.filter_append, discoveryPart_filter_debug]
    by_cases hmem : msg.groupId ∈ st.filteredGroups <;>
      simp [hmem, isDebugEffect, List.filter]
  · by_cases hmem : msg.groupId ∈ st.filteredGroups <;> simp [hmem]
  · intro env2 msg2 hg2 hrej2
    rw [logGroupMessage_reject env2 _ msg2 hrej2]
    have hmem2 : msg2.groupId ∈
        (if msg.groupId ∈ st.filteredGroups then st.filteredGroups
         else msg.groupId :: st.filteredGroups) := by
      rw [hg2]
      by_cases hmem : msg.groupId ∈ st.filteredGroups <;> simp [hmem]
    simp [hmem2, List.filter_append, discoveryPart_filter_debug]

def stC6 : PipelineState :=
  { config :=
      { targetGroups :=
          [{ name := some "Other Group", id := some "x@g.us", enabled := JsVal.vBool true }],
        settings := defaultSettings, firebase := fbFix },
    discoveredGroups := [], filteredGroups := [] }

def msgC6 : InboundMsg :=
  { groupId := "y@g.us", senderId := some "s@s.whatsapp.net", messageId := "m2",
    timestampRaw := 0, content := some { conversation := some "hello" } }

def envC6 : PipelineEnv :=
  { groupSubject := some "Random Group", contactNotify := none, dist := denvOk }

/-- Witness for claim_c6 at a concrete rejected message. -/
theorem claim_c6_witness :
    (shouldMonitorGroup stC6.config msgC6.groupId
      (envC6.groupSubject.getD msgC6.groupId)).1 = false ∧
    ((∀ e ∈ (logGroupMessage envC6 stC6 msgC6).1,
        isPersistEffect e = false ∧ isDispatchEffect e = false ∧
        isReplyEffect e = false ∧ isMessageLogEffect e = false ∧
        isParseAttemptEffect e = false) ∧
     (logGroupMessage envC6 stC6 msgC6).1.filter isDebugEffect =
       (if msgC6.groupId ∈ stC6.filteredGroups then []
        else [Effect.debugFiltered msgC6.groupId]) ∧
     msgC6.groupId ∈ (logGroupMessage envC6 stC6 msgC6).2.filteredGroups ∧
     (∀ env2 : PipelineEnv, ∀ msg2 : InboundMsg, msg2.groupId = msgC6.groupId →
       (shouldMonitorGroup (logGroupMessage envC6 stC6 msgC6).2.config msg2.groupId
         (env2.groupSubject.getD msg2.groupId)).1 = false →
       (logGroupMessage env2 (logGroupMessage envC6 stC6 msgC6).2 msg2).1.filter
         isDebugEffect = [])) :=
  ⟨by decide, claim_c6 envC6 stC6 msgC6 (by decide)⟩

/-! ## Claim C9 -/

/-- Claim C9: for every monitored message, the console block and the file
persistence of the same entry both appear in the trace, and a parse attempt
appears exactly when the payload is classified as plain text or extended
text; every other classification (image, video, audio, document, sticker,
other, unknown) is logged and persisted without being offered to the
parser. -/
theorem claim_c9 (env : PipelineEnv) (st : PipelineState) (msg : InboundMsg)
    (hmon : (shouldMonitorGroup st.config msg.groupId
      (env.groupSubject.getD msg.groupId)).1 = true) :
    ∃ entry,
      Effect.messageLog entry ∈ (logGroupMessage env st msg).1 ∧
      Effect.persist entry ∈ (logGroupMessage env st msg).1 ∧
      ((∃ c, Effect.parseAttempt c ∈ (logGroupMessage env st msg).1) ↔
        (classifyContent msg.content = ContentClass.plainText ∨
         classifyContent msg.content = ContentClass.extendedText)) := by
  simp only [logGroupMessage, hmon, Bool.not_true, Bool.false_eq_true, reduceIte]
  refine ⟨{ timestampRaw := msg.timestampRaw, groupId := msg.groupId,
            groupName := env.groupSubject.getD msg.groupId, senderId := msg.senderId,
            senderName := resolveSenderName env.contactNotify msg.senderId,
            messageId := msg.messageId, content := extractContent msg.content },
          ?_, ?_, ?_⟩
  · exact List.mem_append_left _ (List.mem_append_right _ (List.mem_cons_self _ _))
  · exact List.mem_append_right _ (List.mem_cons_self _ _)
  · rw [← isParseableText_iff_classify]
    constructor
    · rintro ⟨c, hc⟩
      by_cases hp : isParseableText msg.content
      · exact hp
      · exfalso
        rw [if_neg hp] at hc
        rcases List.mem_append.mp hc with hc | hc
        · rcases List.mem_append.mp hc with hc | hc
          · have := discoveryPart_effects _ hc
            exact Effect.noConfusion this
          · rcases List.mem_cons.mp hc with hc | hc
            · exact Effect.noConfusion hc
            · exact absurd hc (List.not_mem_nil _)
        · rcases List.mem_cons.mp hc with hc | hc
          · exact Effect.noConfusion hc
          · exact absurd hc (List.not_mem_nil _)
    · intro hp
      refine ⟨extractContent msg.content, ?_⟩
      apply List.mem_append_left
      apply List.mem_append_right
      apply List.mem_cons_of_mem
      rw [if_pos hp]
      unfold processDistributionRequest
      exact List.mem_cons_self _ _

def msgC9 : InboundMsg :=
  { groupId := "g@g.us", senderId := none, messageId := "m3",
    timestampRaw := 0, content := some { stickerMessage := true } }

/-- Witness for claim_c9 at a monitored sticker message: logged and
persisted, never offered to the parser. -/
theorem claim_c9_witness :
    (shouldMonitorGroup stC5.config msgC9.groupId
      (envC5.groupSubject.getD msgC9.groupId)).1 = true ∧
    (∃ entry,
      Effect.messageLog entry ∈ (logGroupMessage envC5 stC5 msgC9).1 ∧
      Effect.persist entry ∈ (logGroupMessage envC5 stC5 msgC9).1 ∧
      ((∃ c, Effect.parseAttempt c ∈ (logGroupMessage envC5 stC5 msgC9).1) ↔
        (classifyContent msgC9.content = ContentClass.plainText ∨
         classifyContent msgC9.content = ContentClass.extendedText))) :=
  ⟨by decide, claim_c9 envC5 stC5 msgC9 (by decide)⟩
